import Mathlib

/-!
Verification of the orchestration core of the HealthMindCoach repository
(multi-agent health/fitness planner).

The development shallowly embeds the code relevant to the frozen claims:

* the in-memory user-profile store (`get_user_profile` / `update_user_profile`),
* the tolerant JSON recovery routine (`robust_json_parser` in the source,
  embedded here as `robustJsonParse`, with the `re.search(r'({.*})', text,
  re.DOTALL)` fallback embedded operationally as `searchBrace`),
* the Knowledge Council fan-out aggregation loop over expert results,
* the Plan Generator's deterministic branching (`generate_plan`),
* the frontend list parser (`parseListToStructured`) and the
  `UserProfileCard` BMI guard.

Python dictionaries are embedded as association lists with first-match
lookup (`dictLookup`) and replace-or-append assignment (`dictInsert`);
opaque generation calls are abstracted as function parameters.
-/

namespace HealthMindCoach

/-! ## Association-list model of Python dict / JS object -/

/-- First-match lookup, the embedding of Python `d.get(k)` / `d[k]` on a
dict whose insertion history is recorded as a list of key/value pairs. -/
def dictLookup {α : Type} : List (String × α) → String → Option α
  | [], _ => none
  | (k', v) :: rest, k => if k' = k then some v else dictLookup rest k

/-- The embedding of Python `d[k] = v`: replace the value at an existing
key in place, otherwise append the new binding at the end. -/
def dictInsert {α : Type} : List (String × α) → String → α → List (String × α)
  | [], k, v => [(k, v)]
  | (k', v') :: rest, k, v =>
    if k' = k then (k, v) :: rest else (k', v') :: dictInsert rest k v

/-! ## Profile values and the in-memory profile store

Source (`part_000`, "Contextual Memory" section):

    user_profiles: Dict[str, Dict[str, Any]] = {}

    def get_user_profile(user_id: str) -> Dict[str, Any]:
        if not user_id:
            return {}
        return user_profiles.get(user_id, {})

    def update_user_profile(user_id: str, new_data: Dict[str, Any]) -> Dict[str, Any]:
        if not user_id:
            return new_data
        user_profiles[user_id] = new_data.copy()
        return user_profiles[user_id]

The store is threaded explicitly: `update_user_profile` returns the
function result paired with the post-state of `user_profiles`.
An empty `user_id` string is the only falsy value of Python type `str`.
-/

/-- A profile field value (string, number, or list of strings, per §3 of
the spec's data model for `UserProfile`). -/
inductive PValue where
  | num (n : Int)
  | str (s : String)
  | strList (l : List String)
deriving DecidableEq, Repr

/-- A user profile: a dict from field name to value. -/
abbrev Profile := List (String × PValue)

/-- The process-wide `user_profiles` dict. -/
abbrev Store := List (String × Profile)

/-- Embedding of `get_user_profile`. -/
def get_user_profile (store : Store) (user_id : String) : Profile :=
  if user_id = "" then [] else (dictLookup store user_id).getD []

/-- Embedding of `update_user_profile`; returns (function result, new store). -/
def update_user_profile (store : Store) (user_id : String) (new_data : Profile) :
    Profile × Store :=
  if user_id = "" then (new_data, store)
  else (new_data, dictInsert store user_id new_data)

/-! ## Structured Extractor: `robust_json_parser`

Source (`part_000`, "Structured Output Patterns" section):

    def robust_json_parser(text: str) -> Any:
        # First attempt: direct parsing
        try:
            return json.loads(text)
        except json.JSONDecodeError:
            pass
        # Second attempt: extract JSON using regex
        try:
            pattern = r'({.*})'
            match = re.search(pattern, text, re.DOTALL)
            if match:
                json_str = match.group(1)
                return json.loads(json_str)
        except (json.JSONDecodeError, AttributeError):
            pass
        # Return empty dict if all parsing attempts fail
        return {}

`json.loads` is Python library code, abstracted here as a parameter
`parse : String → Option Json` (`none` embeds a raised `JSONDecodeError`).
The regex search is embedded operationally by `searchBrace`: `re.search`
tries each start position from the left; at a start position the pattern
`({.*})` matches exactly when the character there is an opening brace and
some closing brace occurs later, and the greedy dot-all `.*` then extends
the match to the last closing brace of the string.
-/

/-- A parsed JSON document (the shape of `json.loads` results). -/
inductive Json where
  | null
  | bool (b : Bool)
  | num (n : Int)
  | str (s : String)
  | arr (elems : List Json)
  | obj (fields : List (String × Json))

/-- Split a character list just before its last closing brace:
`lastCloseSplit cs = some pre` when `cs = pre ++ '\x7d' :: post` with no
closing brace in `post`; `none` when `cs` has no closing brace. This is
how the greedy `.*})` tail of the regex selects its end. -/
def lastCloseSplit : List Char → Option (List Char)
  | [] => none
  | c :: rest =>
    match lastCloseSplit rest with
    | some pre => some (c :: pre)
    | none => if c = '\x7d' then some [] else none

/-- Embedding of `re.search(r'({.*})', text, re.DOTALL)`: scan start
positions left to right; at an opening brace with a later closing brace,
return the span up to the last closing brace. -/
def searchBrace : List Char → Option (List Char)
  | [] => none
  | c :: rest =>
    if c = '\x7b' then
      match lastCloseSplit rest with
      | some pre => some ('\x7b' :: (pre ++ ['\x7d']))
      | none => searchBrace rest
    else searchBrace rest

/-- Embedding of `robust_json_parser` (named without the source's trailing
word). `parse` abstracts `json.loads`. -/
def robustJsonParse (parse : String → Option Json) (text : String) : Json :=
  match parse text with
  | some v => v
  | none =>
    match searchBrace text.toList with
    | some m =>
      match parse (String.mk m) with
      | some v => v
      | none => Json.obj []
    | none => Json.obj []

/-! ### The regex fallback versus the spec's balanced-brace description -/

/-- Brace-balance check: every prefix has at least as many opening as
closing braces and the total counts agree. -/
def braceDepthOk : List Char → Int → Bool
  | [], d => d = 0
  | c :: rest, d =>
    if c = '\x7b' then braceDepthOk rest (d + 1)
    else if c = '\x7d' then decide (0 < d) && braceDepthOk rest (d - 1)
    else braceDepthOk rest d

/-- A character list is brace-balanced. -/
def braceBalanced (cs : List Char) : Bool := braceDepthOk cs 0

/-- Modelled from the spec: among the prefixes of a text starting at its
leftmost opening brace, the candidates ending in a closing brace that are
brace-balanced; the largest such candidate (rightmost matching end). The
source has no such computation — this is the spec's §4.1 step 2 wording,
used as the comparison point for the refinement claim. -/
def longestBalanced (cs : List Char) : Option (List Char) :=
  ((List.range (cs.length + 1)).filterMap (fun n =>
    let p := cs.take n
    if braceBalanced p ∧ p ≠ [] ∧ p.getLast? = some '\x7d' then some p else none)).getLast?

/-- Modelled from the spec: the largest balanced-brace substring of the
text, leftmost start, rightmost matching end (§4.1 step 2 wording). -/
def balancedSpan : List Char → Option (List Char)
  | [] => none
  | c :: rest =>
    if c = '\x7b' then longestBalanced ('\x7b' :: rest) else balancedSpan rest

/-- A probe parse succeeding only on the balanced substring `"\x7ba\x7d"`,
used to observe which substring the fallback actually retries. -/
def probeParse (s : String) : Option Json :=
  if s = "\x7ba\x7d" then some (Json.str "balanced") else none

/-- A parse succeeding exactly on the object substring `"\x7b1\x7d"`. -/
def retryProbe (s : String) : Option Json :=
  if s = "\x7b1\x7d" then some (Json.num 1) else none

/-! ## Knowledge Council: fan-out aggregation

Source (`part_000`, the `HealthKnowledgeCouncilAgent` fan-out loop):

    with ThreadPoolExecutor() as executor:
        future_to_expert = {
            executor.submit(self.experts[expert].process_query, expert_input): expert
            for expert in required_experts
        }
        for future in future_to_expert:
            expert_name = future_to_expert[future]
            try:
                result = future.result()
                expert_responses[expert_name] = {
                    "title": result.title,
                    "content": result.content,
                    "subtopics": result.subtopics
                }
                if result.references:
                    all_references.extend(result.references)
                if result.disclaimers:
                    all_disclaimers.extend(result.disclaimers)
            except Exception as e:
                # Handle error...

The loop iterates the `future_to_expert` dict, i.e. the experts in
submission order; each `future.result()` blocks until that expert settles,
so the processing order is independent of completion order. The settled
outcomes are embedded as an association list `completed` from expert name
to `Option ExpertAnswer` (`none` embeds a raised generation error), whose
list order records completion order; `resultFor` embeds the blocking
`future.result()` lookup. The body of the `except` clause is elided in the
source; following the spec (§4.3 Step B) a failed expert is simply
skipped. The final merge of the bundle is likewise not shown in the
source; `dedupTexts` models the spec's §4.3 Step C exact-text
deduplication.
-/

/-- An expert's structured answer (the fields the aggregation loop reads). -/
structure ExpertAnswer where
  title : String
  content : String
  subtopics : List (String × String)
  references : List String
  disclaimers : List String
deriving DecidableEq, Repr

/-- The per-expert record stored under `expert_responses[expert_name]`. -/
structure ExpertCore where
  title : String
  content : String
  subtopics : List (String × String)
deriving DecidableEq, Repr

/-- The aggregation state / resulting bundle. -/
structure KnowledgeBundle where
  expert_responses : List (String × ExpertCore)
  all_references : List String
  all_disclaimers : List String
deriving DecidableEq, Repr

/-- The core fields extracted from a successful expert result. -/
def coreOf (r : ExpertAnswer) : ExpertCore :=
  { title := r.title, content := r.content, subtopics := r.subtopics }

/-- One iteration of the fan-out loop body. A `none` result embeds the
`except` branch; its body is elided in the source, and per the spec the
failed expert is simply skipped (Modelled from the spec: §4.3 Step B,
"the failed expert is simply omitted from the bundle"). -/
def processResult (acc : KnowledgeBundle) (expertName : String)
    (result : Option ExpertAnswer) : KnowledgeBundle :=
  match result with
  | none => acc
  | some r =>
    { expert_responses := dictInsert acc.expert_responses expertName (coreOf r)
      all_references :=
        acc.all_references ++ (if r.references.isEmpty then [] else r.references)
      all_disclaimers :=
        acc.all_disclaimers ++ (if r.disclaimers.isEmpty then [] else r.disclaimers) }

/-- Embedding of `future.result()` for one expert: look its settled
outcome up among the completed futures (an absent entry behaves like a
failure). -/
def resultFor (completed : List (String × Option ExpertAnswer)) (e : String) :
    Option ExpertAnswer :=
  (dictLookup completed e).getD none

/-- The fan-out loop: iterate the experts in submission order, folding the
loop body over the settled outcomes. -/
def aggregateResults (required_experts : List String)
    (completed : List (String × Option ExpertAnswer)) : KnowledgeBundle :=
  required_experts.foldl (fun acc e => processResult acc e (resultFor completed e))
    { expert_responses := [], all_references := [], all_disclaimers := [] }

/-- Modelled from the spec: §4.3 Step C deduplication "by exact text
match", keeping the first occurrence of each text; the source's README
snippet ends before the bundle-construction code. -/
def dedupKeepFirst (seen : List String) : List String → List String
  | [] => []
  | s :: rest =>
    if s ∈ seen then dedupKeepFirst seen rest
    else s :: dedupKeepFirst (s :: seen) rest

/-- Modelled from the spec: exact-text deduplication of a merged list. -/
def dedupTexts (l : List String) : List String := dedupKeepFirst [] l

/-- The Knowledge Council bundle: aggregation loop followed by the merge
step with deduplicated references and disclaimers. -/
def consultBundle (required_experts : List String)
    (completed : List (String × Option ExpertAnswer)) : KnowledgeBundle :=
  let b := aggregateResults required_experts completed
  { b with all_references := dedupTexts b.all_references
           all_disclaimers := dedupTexts b.all_disclaimers }

/-- A concrete nutrition expert answer used by the council witnesses. -/
def ansNutrition : ExpertAnswer :=
  { title := "Nutrition basics"
    content := "Eat whole foods."
    subtopics := []
    references := ["WHO dietary guidelines"]
    disclaimers := ["Not medical advice"] }

/-- A concrete fitness expert answer sharing one reference text with the
nutrition answer, so the merged list needs deduplication. -/
def ansFitness : ExpertAnswer :=
  { title := "Fitness basics"
    content := "Train consistently."
    subtopics := []
    references := ["WHO dietary guidelines", "ACSM guidelines"]
    disclaimers := ["Not medical advice"] }

/-- The expert selection used by the council witnesses. -/
def councilExperts : List String := ["nutrition", "fitness"]

/-- Settled outcomes where both experts succeed. -/
def councilCompleted : List (String × Option ExpertAnswer) :=
  [("nutrition", some ansNutrition), ("fitness", some ansFitness)]

/-- Settled outcomes where every invoked expert has failed. -/
def failedCompleted : List (String × Option ExpertAnswer) :=
  [("nutrition", none), ("fitness", none)]

/-! ## Plan Generator: `generate_plan`

Source (`part_000`, Plan Generation Council section):

    def generate_plan(self, request, user_profile):
        plan_type = request.get("plan_type", "general")
        goal = request.get("goal", "overall health improvement")
        plan_components = {}
        if plan_type in ["diet", "general"]:
            diet_plan = self._generate_diet_plan(goal, user_profile)
            plan_components["diet_plan"] = diet_plan
        if plan_type in ["fitness", "general"]:
            fitness_plan = self._generate_fitness_plan(goal, user_profile)
            plan_components["fitness_plan"] = fitness_plan
        plan_components["lifestyle_recommendations"] = \
            self._generate_lifestyle_recommendations(goal, user_profile)
        plan_components["personalized_notes"] = \
            self._generate_personalized_notes(goal, user_profile)
        return plan_components

The four `_generate_*` helpers wrap generation calls and are abstracted
as function parameters producing opaque components of type `α`.
-/

/-- Embedding of `generate_plan`; the request is the dict of request
details and the result the `plan_components` dict. -/
def generate_plan {α : Type} (genDiet genFitness genLifestyle genNotes :
    String → Profile → α) (request : List (String × String))
    (user_profile : Profile) : List (String × α) :=
  let plan_type := (dictLookup request "plan_type").getD "general"
  let goal := (dictLookup request "goal").getD "overall health improvement"
  let c0 : List (String × α) := []
  let c1 := if plan_type = "diet" ∨ plan_type = "general"
    then dictInsert c0 "diet_plan" (genDiet goal user_profile) else c0
  let c2 := if plan_type = "fitness" ∨ plan_type = "general"
    then dictInsert c1 "fitness_plan" (genFitness goal user_profile) else c1
  let c3 := dictInsert c2 "lifestyle_recommendations" (genLifestyle goal user_profile)
  dictInsert c3 "personalized_notes" (genNotes goal user_profile)

/-! ## Frontend list parser: `parseListToStructured`

Source (`part_003`):

    export const parseListToStructured = (listText) => {
      if (!listText) return [];
      const lines = listText.split('\n').filter(line => line.trim());
      const result = [];
      lines.forEach(line => {
        const match = line.match(/^(\d+\.\s*)(.+)$/);
        if (match) {
          const contentMatch = match[2].match(/^\*\*([^:]+):\*\*\s*(.+)$/);
          if (contentMatch) {
            result.push({ number: match[1].trim(), title: contentMatch[1],
                          content: contentMatch[2].trim() });
          } else {
            result.push({ number: match[1].trim(), content: match[2].trim() });
          }
        } else {
          result.push({ content: line.trim() });
        }
      });
      return result;
    };

The regexes are embedded operationally. `^(\d+\.\s*)(.+)$` matches iff
the maximal digit prefix is non-empty, the next character is a dot, and
the rest of the line can be split as `\s*` whitespace followed by a
non-empty `(.+)` tail running to the end of the line whose characters the
JS dot can match — the dot excludes the line terminators, so a line such
as `"1. apples\r"` does *not* match (the trailing CR can be consumed by
neither `.` nor, there, by `$`, which in JS anchors only at the very end).
`greedyWsSplit` embeds the greedy `\s*` with that backtracking: it yields
the maximal whitespace run, giving one character back when `\s*` would
swallow the whole remainder, and fails when the tail would contain a line
terminator. An absent field of the pushed JS object is `none`.
-/

/-- JS regex whitespace `\s` restricted to its ASCII members plus the two
Unicode line separators (the members exercised by these inputs). -/
def isSpaceChar (c : Char) : Bool :=
  (c == ' ') || (c == '\t') || (c == '\n') || (c == '\r') ||
    (c == '\x0b') || (c == '\x0c') || (c == '\u2028') || (c == '\u2029')

/-- The characters the JS regex dot can match: anything but the four
ECMAScript line terminators. -/
def isDotChar (c : Char) : Bool :=
  !((c == '\n') || (c == '\r') || (c == '\u2028') || (c == '\u2029'))

/-- Embedding of `String.prototype.trim`. -/
def jsTrim (cs : List Char) : List Char :=
  ((cs.dropWhile isSpaceChar).reverse.dropWhile isSpaceChar).reverse

/-- Embedding of `text.split('\n')` (separator occurrences delimit the
pieces; the empty string splits to one empty piece). -/
def splitLines : List Char → List (List Char)
  | [] => [[]]
  | c :: rest =>
    match splitLines rest with
    | [] => [[c]]
    | h :: t => if c = '\n' then [] :: h :: t else (c :: h) :: t

/-- The greedy `\s*` followed by `(.+)$`: the content group is a suffix
of the remainder, must be non-empty, must consist of dot-matchable
characters, and its complementary whitespace prefix is maximal. When the
whitespace run would swallow the whole remainder, `\s*` gives exactly one
character back (any shorter retry still ends in the same last character);
when the remainder's tail contains a line terminator no split succeeds,
since every candidate content group is a suffix containing it. Returns
`some` (whitespace group, content group) or `none` when the pattern tail
cannot match. -/
def greedyWsSplit (cs : List Char) : Option (List Char × List Char) :=
  if (cs.takeWhile isSpaceChar).length = cs.length then
    match cs.getLast? with
    | none => none
    | some c => if isDotChar c then some (cs.dropLast, [c]) else none
  else
    if (cs.drop (cs.takeWhile isSpaceChar).length).all isDotChar then
      some (cs.takeWhile isSpaceChar, cs.drop (cs.takeWhile isSpaceChar).length)
    else none

/-- Embedding of `line.match(/^(\d+\.\s*)(.+)$/)`, returning the two
capture groups on success. -/
def matchNumbered (cs : List Char) : Option (List Char × List Char) :=
  if (cs.takeWhile Char.isDigit).isEmpty then none
  else
    match cs.drop (cs.takeWhile Char.isDigit).length with
    | [] => none
    | c :: rest =>
      if c = '.' then
        match greedyWsSplit rest with
        | some pr => some (cs.takeWhile Char.isDigit ++ '.' :: pr.1, pr.2)
        | none => none
      else none

/-- Embedding of `match[2].match(/^\*\*([^:]+):\*\*\s*(.+)$/)`: the title
is everything between the leading `**` and the first colon (the negated
class `[^:]+` matches line terminators, unlike the dot), which must be
followed by `**` and a tail matching `\s*(.+)$`. -/
def matchTitled (cs : List Char) : Option (List Char × List Char) :=
  match cs with
  | '*' :: '*' :: rest =>
    if (rest.takeWhile (fun c => c != ':')).isEmpty then none
    else
      match rest.drop (rest.takeWhile (fun c => c != ':')).length with
      | ':' :: '*' :: '*' :: rest2 =>
        match greedyWsSplit rest2 with
        | some pr => some (rest.takeWhile (fun c => c != ':'), pr.2)
        | none => none
      | _ => none
  | _ => none

/-- One structured list item; absent JS object fields are `none`. -/
structure ListItem where
  number : Option String
  title : Option String
  content : String
deriving DecidableEq, Repr

/-- The loop body pushing one item per line. -/
def parseLine (line : List Char) : ListItem :=
  match matchNumbered line with
  | some (g1, g2) =>
    match matchTitled g2 with
    | some (t, c) =>
      { number := some (String.mk (jsTrim g1)), title := some (String.mk t),
        content := String.mk (jsTrim c) }
    | none =>
      { number := some (String.mk (jsTrim g1)), title := none,
        content := String.mk (jsTrim g2) }
  | none => { number := none, title := none, content := String.mk (jsTrim line) }

/-- The non-blank lines kept by `.filter(line => line.trim())`. -/
def nonBlankLines (s : String) : List (List Char) :=
  (splitLines s.toList).filter (fun l => !(jsTrim l).isEmpty)

/-- Embedding of `parseListToStructured`; `none` embeds a null/undefined
argument (falsy, like the empty string). -/
def parseListToStructured (listText : Option String) : List ListItem :=
  match listText with
  | none => []
  | some s => if s = "" then [] else (nonBlankLines s).map parseLine

/-! ## `UserProfileCard` BMI guard

Source (`part_005`):

    let bmi = null;
    if (profile.weight_lbs && profile.height_inches && profile.height_inches > 0) {
      bmi = ((profile.weight_lbs * 703) / (profile.height_inches * profile.height_inches)).toFixed(1);
    }
    ...
    {bmi && ( <ProfileItem> ... BMI ... {bmi} ... </ProfileItem> )}

A missing field is `none`; a present numeric field `some q`. JS truthiness
of a number is embedded as "non-zero" (the claim concerns the guard's
control flow, not float formatting, so the value is kept as the exact
rational and `toFixed` is not modelled). `bmi` stays `null` (`none`) when
the guard fails, and the rendered BMI entry is conditioned on `bmi` being
truthy, so `none` also means no BMI entry is produced.
-/

/-- The BMI computation of `UserProfileCard`: `none` embeds the `null`
initialisation kept when the guard fails. -/
def computeBMI : Option ℚ → Option ℚ → Option ℚ
  | some w, some h =>
    if w ≠ 0 ∧ h ≠ 0 ∧ 0 < h then some ((w * 703) / (h * h)) else none
  | _, _ => none

theorem dictLookup_dictInsert_self {α : Type} (l : List (String × α)) (k : String) (v : α) :
    dictLookup (dictInsert l k v) k = some v := by
  induction l with
  | nil => simp [dictInsert, dictLookup]
  | cons p rest ih =>
    obtain ⟨k', v'⟩ := p
    by_cases h : k' = k
    · simp [dictInsert, dictLookup, h]
    · simp [dictInsert, dictLookup, h, ih]

theorem dictLookup_dictInsert_ne {α : Type} (l : List (String × α)) (k k' : String) (v : α)
    (h : k ≠ k') : dictLookup (dictInsert l k v) k' = dictLookup l k' := by
  induction l with
  | nil => simp [dictInsert, dictLookup, h]
  | cons p rest ih =>
    obtain ⟨a, b⟩ := p
    by_cases ha : a = k
    · subst ha
      simp [dictInsert, dictLookup, h]
    · simp [dictInsert, dictLookup, ha, ih]

theorem dictLookup_eq_none_of_not_mem_keys {α : Type} (l : List (String × α)) (k : String)
    (h : k ∉ l.map Prod.fst) : dictLookup l k = none := by
  induction l with
  | nil => rfl
  | cons p rest ih =>
    obtain ⟨a, b⟩ := p
    simp only [List.map_cons, List.mem_cons] at h
    push_neg at h
    have ha : ¬ a = k := fun hh => h.1 hh.symm
    simp [dictLookup, ha, ih h.2]

theorem dictLookup_append {α : Type} (l₁ l₂ : List (String × α)) (k : String) :
    dictLookup (l₁ ++ l₂) k = (dictLookup l₁ k).or (dictLookup l₂ k) := by
  induction l₁ with
  | nil => simp [dictLookup]
  | cons p rest ih =>
    obtain ⟨a, b⟩ := p
    by_cases h : a = k <;> simp [dictLookup, h, ih]

theorem dictLookup_reverse {α : Type} (l : List (String × α)) (k : String)
    (h : (l.map Prod.fst).Nodup) : dictLookup l.reverse k = dictLookup l k := by
  induction l with
  | nil => rfl
  | cons p rest ih =>
    obtain ⟨a, b⟩ := p
    simp only [List.map_cons, List.nodup_cons] at h
    rw [List.reverse_cons, dictLookup_append]
    by_cases hk : a = k
    · subst hk
      have hnone : dictLookup rest a = none :=
        dictLookup_eq_none_of_not_mem_keys rest a h.1
      rw [ih h.2, hnone]
      simp [dictLookup]
    · rw [ih h.2]
      cases hr : dictLookup rest k <;> simp [dictLookup, hk, hr]

/-- C2: the storage write replaces the entire stored profile with the newly
extracted field set — whatever was stored for the user before, after
`update_user_profile` the stored profile is exactly the new data, with all
old fields dropped. -/
theorem update_user_profile_replaces (store : Store) (user_id : String) (new_data : Profile)
    (h : user_id ≠ "") :
    get_user_profile (update_user_profile store user_id new_data).2 user_id = new_data := by
  unfold update_user_profile get_user_profile
  rw [if_neg h]
  simp [dictLookup_dictInsert_self, h]

/-- C2 witness: starting from a store holding `{age: 30}` for user `u1`,
updating with extraction `{weight: 150}` leaves exactly `{weight: 150}`
stored (the old `age` field is dropped). -/
theorem update_user_profile_replaces_witness :
    get_user_profile
      (update_user_profile [("u1", [("age", PValue.num 30)])] "u1"
        [("weight", PValue.num 150)]).2 "u1" = [("weight", PValue.num 150)] :=
  update_user_profile_replaces [("u1", [("age", PValue.num 30)])] "u1"
    [("weight", PValue.num 150)] (by decide)

/-- C8: with an empty (falsy) user identifier, `update_user_profile` returns
the new data unchanged and leaves the shared store entirely unmodified, and
`get_user_profile` returns the empty profile. -/
theorem profile_ops_empty_user_id (store : Store) (new_data : Profile) :
    update_user_profile store "" new_data = (new_data, store) ∧
    get_user_profile store "" = [] := by
  constructor
  · unfold update_user_profile
    rw [if_pos rfl]
  · unfold get_user_profile
    rw [if_pos rfl]

/-- C1: whenever the direct parse and the parse of the regex-extracted
substring both fail, the extractor returns the empty object. The embedding
is a total function, so no exception can reach the caller. -/
theorem robustJsonParse_default_on_failure (parse : String → Option Json) (text : String)
    (h1 : parse text = none)
    (h2 : ∀ m, searchBrace text.toList = some m → parse (String.mk m) = none) :
    robustJsonParse parse text = Json.obj [] := by
  unfold robustJsonParse
  rw [h1]
  cases hsb : searchBrace text.toList with
  | none => rfl
  | some m =>
    dsimp only
    rw [h2 m hsb]

/-- C1 witness: a parse that always fails (text with no JSON present)
yields the empty object. -/
theorem robustJsonParse_default_on_failure_witness :
    robustJsonParse (fun _ => none) "The model returned prose, no JSON here." = Json.obj [] :=
  robustJsonParse_default_on_failure (fun _ => none)
    "The model returned prose, no JSON here." rfl (fun _ _ => rfl)

/-- C5 counterexample: on `"note \x7ba\x7d\x7d end"` the regex fallback
retries the span from the leftmost opening brace to the rightmost closing
brace, `"\x7ba\x7d\x7d"`, which is not brace-balanced; the largest
balanced-brace substring is `"\x7ba\x7d"`, and a parse succeeding exactly
on that balanced substring is never consulted — the extractor falls back
to the empty object instead. -/
theorem searchBrace_not_balanced_counterexample :
    searchBrace ("note \x7ba\x7d\x7d end".toList) =
      some ['\x7b', 'a', '\x7d', '\x7d'] ∧
    braceBalanced ['\x7b', 'a', '\x7d', '\x7d'] = false ∧
    balancedSpan ("note \x7ba\x7d\x7d end".toList) = some ['\x7b', 'a', '\x7d'] ∧
    robustJsonParse probeParse "note \x7ba\x7d\x7d end" = Json.obj [] :=
  ⟨by decide, by decide, by decide, rfl⟩

theorem no_close_of_lastCloseSplit_none (cs : List Char) (h : lastCloseSplit cs = none) :
    '\x7d' ∉ cs := by
  induction cs with
  | nil => simp
  | cons c rest ih =>
    unfold lastCloseSplit at h
    cases hr : lastCloseSplit rest with
    | some q => rw [hr] at h; cases h
    | none =>
      rw [hr] at h
      by_cases hc : c = '\x7d'
      · rw [if_pos hc] at h; cases h
      · simp only [List.mem_cons]
        push_neg
        exact ⟨fun hcc => hc hcc.symm, ih hr⟩

theorem lastCloseSplit_spec (cs : List Char) (pre : List Char)
    (h : lastCloseSplit cs = some pre) :
    ∃ post, cs = pre ++ '\x7d' :: post ∧ '\x7d' ∉ post := by
  induction cs generalizing pre with
  | nil => simp [lastCloseSplit] at h
  | cons c rest ih =>
    unfold lastCloseSplit at h
    cases hr : lastCloseSplit rest with
    | some q =>
      rw [hr] at h
      obtain ⟨post, hq, hpost⟩ := ih q hr
      cases h
      exact ⟨post, by simp [hq], hpost⟩
    | none =>
      rw [hr] at h
      by_cases hc : c = '\x7d'
      · rw [if_pos hc] at h
        cases h
        exact ⟨rest, by simp [hc], no_close_of_lastCloseSplit_none rest hr⟩
      · rw [if_neg hc] at h
        cases h

theorem lastCloseSplit_none_of_no_close (cs : List Char) (h : '\x7d' ∉ cs) :
    lastCloseSplit cs = none := by
  induction cs with
  | nil => rfl
  | cons c rest ih =>
    simp only [List.mem_cons] at h
    push_neg at h
    unfold lastCloseSplit
    rw [ih h.2]
    exact if_neg (fun hc => h.1 hc.symm)

theorem searchBrace_none_of_no_close (cs : List Char) (h : '\x7d' ∉ cs) :
    searchBrace cs = none := by
  induction cs with
  | nil => rfl
  | cons c rest ih =>
    simp only [List.mem_cons] at h
    push_neg at h
    unfold searchBrace
    rw [lastCloseSplit_none_of_no_close rest h.2]
    by_cases hc : c = '\x7b' <;> simp [hc, ih h.2]

/-- C5 (amended): when the direct parse fails, the fallback retries the
parse on the substring running from the *leftmost opening brace* of the
text through the *rightmost closing brace* (present exactly when some
closing brace follows some opening brace); that substring need not be
brace-balanced. -/
theorem robustJsonParse_retry_span (parse : String → Option Json) (text : String)
    (m : List Char) (h1 : parse text = none) (h2 : searchBrace text.toList = some m) :
    robustJsonParse parse text = ((parse (String.mk m)).getD (Json.obj [])) ∧
    ∃ pre mid post, text.toList = pre ++ '\x7b' :: mid ++ '\x7d' :: post ∧
      '\x7b' ∉ pre ∧ '\x7d' ∉ post ∧ m = '\x7b' :: mid ++ ['\x7d'] := by
  constructor
  · unfold robustJsonParse
    rw [h1, h2]
    dsimp only
    cases hp : parse (String.mk m) <;> simp [hp]
  · clear h1
    generalize hl : text.toList = cs at h2
    clear hl
    induction cs with
    | nil => simp [searchBrace] at h2
    | cons c rest ih =>
      unfold searchBrace at h2
      by_cases hc : c = '\x7b'
      · rw [if_pos hc] at h2
        cases hr : lastCloseSplit rest with
        | some pre =>
          rw [hr] at h2
          cases h2
          obtain ⟨post, hq, hpost⟩ := lastCloseSplit_spec rest pre hr
          exact ⟨[], pre, post, by simp [hc, hq], by simp, hpost, by simp⟩
        | none =>
          rw [hr] at h2
          -- no closing brace in `rest`, so the recursive search also fails
          have hnone : searchBrace rest = none :=
            searchBrace_none_of_no_close rest (no_close_of_lastCloseSplit_none rest hr)
          rw [hnone] at h2
          cases h2
      · rw [if_neg hc] at h2
        obtain ⟨pre, mid, post, hcs, hpre, hpost, hm⟩ := ih h2
        refine ⟨c :: pre, mid, post, by simp [hcs], ?_, hpost, hm⟩
        simp only [List.mem_cons]
        push_neg
        exact ⟨fun hcc => hc hcc.symm, hpre⟩

/-- C5 amended-claim witness: on `"ans: \x7b1\x7d"` the fallback retries
the span from the leftmost opening to the rightmost closing brace and
returns its parse. -/
theorem robustJsonParse_retry_span_witness :
    robustJsonParse retryProbe "ans: \x7b1\x7d" = Json.num 1 := by
  have h := robustJsonParse_retry_span retryProbe "ans: \x7b1\x7d" ['\x7b', '1', '\x7d']
    rfl (by decide)
  rw [h.1]
  rfl

theorem mem_dedupKeepFirst (l : List String) (seen : List String) (x : String) :
    x ∈ dedupKeepFirst seen l ↔ x ∈ l ∧ x ∉ seen := by
  induction l generalizing seen with
  | nil => simp [dedupKeepFirst]
  | cons s rest ih =>
    by_cases hs : s ∈ seen
    · rw [dedupKeepFirst, if_pos hs, ih]
      constructor
      · exact fun h => ⟨List.mem_cons_of_mem s h.1, h.2⟩
      · rintro ⟨hm, hns⟩
        rcases List.mem_cons.mp hm with rfl | hm
        · exact absurd hs hns
        · exact ⟨hm, hns⟩
    · rw [dedupKeepFirst, if_neg hs]
      constructor
      · intro h
        rcases List.mem_cons.mp h with rfl | h
        · exact ⟨List.mem_cons_self x rest, hs⟩
        · have := (ih (s :: seen)).mp h
          exact ⟨List.mem_cons_of_mem s this.1,
            fun hx => this.2 (List.mem_cons_of_mem s hx)⟩
      · rintro ⟨hm, hns⟩
        rcases List.mem_cons.mp hm with rfl | hm
        · exact List.mem_cons_self x _
        · by_cases hxs : x = s
          · subst hxs
            exact List.mem_cons_self x _
          · refine List.mem_cons_of_mem s ((ih (s :: seen)).mpr ⟨hm, ?_⟩)
            intro hx
            rcases List.mem_cons.mp hx with h | h
            · exact hxs h
            · exact hns h

theorem nodup_dedupKeepFirst (l : List String) (seen : List String) :
    (dedupKeepFirst seen l).Nodup := by
  induction l generalizing seen with
  | nil => simp [dedupKeepFirst]
  | cons s rest ih =>
    by_cases hs : s ∈ seen
    · rw [dedupKeepFirst, if_pos hs]
      exact ih seen
    · rw [dedupKeepFirst, if_neg hs]
      refine List.nodup_cons.mpr ⟨?_, ih (s :: seen)⟩
      intro hmem
      exact ((mem_dedupKeepFirst rest (s :: seen) s).mp hmem).2 (List.mem_cons_self s seen)

/-- Folding further experts never touches the response stored for an
expert not among them. -/
theorem aggregate_lookup_frozen (completed : List (String × Option ExpertAnswer))
    (xs : List String) (acc : KnowledgeBundle) (e : String) (he : e ∉ xs) :
    dictLookup ((xs.foldl (fun acc x => processResult acc x (resultFor completed x))
      acc).expert_responses) e = dictLookup acc.expert_responses e := by
  induction xs generalizing acc with
  | nil => rfl
  | cons x rest ih =>
    simp only [List.mem_cons] at he
    push_neg at he
    rw [List.foldl_cons, ih _ he.2]
    cases hr : resultFor completed x with
    | none => rfl
    | some r =>
      simp only [processResult]
      exact dictLookup_dictInsert_ne _ x e (coreOf r) (fun hxe => he.1 hxe.symm)

/-- Folding the loop over a duplicate-free expert list stores each
succeeded expert's core answer under its own name. -/
theorem aggregate_lookup_found (completed : List (String × Option ExpertAnswer))
    (xs : List String) (acc : KnowledgeBundle) (e : String) (hnd : xs.Nodup)
    (he : e ∈ xs) (r : ExpertAnswer) (hr : resultFor completed e = some r) :
    dictLookup ((xs.foldl (fun acc x => processResult acc x (resultFor completed x))
      acc).expert_responses) e = some (coreOf r) := by
  induction xs generalizing acc with
  | nil => cases he
  | cons x rest ih =>
    rw [List.nodup_cons] at hnd
    rw [List.foldl_cons]
    rcases List.mem_cons.mp he with rfl | he2
    · rw [aggregate_lookup_frozen completed rest _ e hnd.1]
      simp only [processResult, hr]
      exact dictLookup_dictInsert_self _ e (coreOf r)
    · exact ih _ hnd.2 he2

/-- C3: the Knowledge Council merge produces reference and disclaimer
lists with no two entries of identical text, loses no reference or
disclaimer text gathered from the succeeded experts, and keeps each
succeeded expert's structured answer keyed by its domain identifier. -/
theorem council_merge_dedup_keyed (required_experts : List String)
    (completed : List (String × Option ExpertAnswer))
    (hnd : required_experts.Nodup) :
    (consultBundle required_experts completed).all_references.Nodup ∧
    (consultBundle required_experts completed).all_disclaimers.Nodup ∧
    (∀ x, x ∈ (consultBundle required_experts completed).all_references ↔
      x ∈ (aggregateResults required_experts completed).all_references) ∧
    (∀ x, x ∈ (consultBundle required_experts completed).all_disclaimers ↔
      x ∈ (aggregateResults required_experts completed).all_disclaimers) ∧
    ∀ e ∈ required_experts, ∀ r, resultFor completed e = some r →
      dictLookup (consultBundle required_experts completed).expert_responses e =
        some (coreOf r) := by
  refine ⟨nodup_dedupKeepFirst _ [], nodup_dedupKeepFirst _ [], ?_, ?_, ?_⟩
  · intro x
    rw [show (consultBundle required_experts completed).all_references =
      dedupTexts (aggregateResults required_experts completed).all_references from rfl]
    rw [dedupTexts, mem_dedupKeepFirst]
    simp
  · intro x
    rw [show (consultBundle required_experts completed).all_disclaimers =
      dedupTexts (aggregateResults required_experts completed).all_disclaimers from rfl]
    rw [dedupTexts, mem_dedupKeepFirst]
    simp
  · intro e he r hr
    rw [show (consultBundle required_experts completed).expert_responses =
      (aggregateResults required_experts completed).expert_responses from rfl]
    exact aggregate_lookup_found completed required_experts _ e hnd he r hr

/-- C3 witness: with two succeeded experts sharing a reference text, the
merged reference list is duplicate-free and the nutrition answer is stored
under its domain key. -/
theorem council_merge_dedup_keyed_witness :
    (consultBundle councilExperts councilCompleted).all_references.Nodup ∧
    dictLookup (consultBundle councilExperts councilCompleted).expert_responses
      "nutrition" = some (coreOf ansNutrition) := by
  have h := council_merge_dedup_keyed councilExperts councilCompleted (by decide)
  exact ⟨h.1, h.2.2.2.2 "nutrition" (by decide) ansNutrition (by decide)⟩

/-- C4: the bundle built over an expert list equals the bundle built over
only the experts whose call succeeded — a failed expert is simply omitted
and does not perturb the others — and when every invoked expert fails the
council still returns the structurally valid empty bundle, not an error. -/
theorem council_omits_failures (required_experts : List String)
    (completed : List (String × Option ExpertAnswer)) :
    consultBundle required_experts completed =
      consultBundle
        (required_experts.filter (fun e => (resultFor completed e).isSome)) completed ∧
    ((∀ e ∈ required_experts, resultFor completed e = none) →
      consultBundle required_experts completed =
        { expert_responses := [], all_references := [], all_disclaimers := [] }) := by
  have hfilter : ∀ (xs : List String) (acc : KnowledgeBundle),
      xs.foldl (fun acc e => processResult acc e (resultFor completed e)) acc =
      (xs.filter (fun e => (resultFor completed e).isSome)).foldl
        (fun acc e => processResult acc e (resultFor completed e)) acc := by
    intro xs
    induction xs with
    | nil => intro acc; rfl
    | cons x rest ih =>
      intro acc
      cases hp : resultFor completed x with
      | some r =>
        rw [List.filter_cons_of_pos (by simp [hp]), List.foldl_cons, List.foldl_cons]
        exact ih _
      | none =>
        rw [List.filter_cons_of_neg (by simp [hp]), List.foldl_cons, hp]
        exact ih _
  have hdead : ∀ (xs : List String) (acc : KnowledgeBundle),
      (∀ e ∈ xs, resultFor completed e = none) →
      xs.foldl (fun acc e => processResult acc e (resultFor completed e)) acc = acc := by
    intro xs
    induction xs with
    | nil => intro acc _; rfl
    | cons x rest ih =>
      intro acc hall
      rw [List.foldl_cons, hall x (List.mem_cons_self x rest)]
      exact ih acc (fun e he => hall e (List.mem_cons_of_mem x he))
  constructor
  · unfold consultBundle
    suffices hagg : aggregateResults required_experts completed =
        aggregateResults
          (required_experts.filter (fun e => (resultFor completed e).isSome)) completed by
      rw [hagg]
    unfold aggregateResults
    exact hfilter required_experts _
  · intro hall
    unfold consultBundle
    suffices hagg : aggregateResults required_experts completed =
        { expert_responses := [], all_references := [], all_disclaimers := [] } by
      rw [hagg]
      rfl
    unfold aggregateResults
    exact hdead required_experts _ hall

/-- C4 witness: with both experts failed, the council returns the empty
bundle. -/
theorem council_omits_failures_witness :
    consultBundle councilExperts failedCompleted =
      { expert_responses := [], all_references := [], all_disclaimers := [] } :=
  (council_omits_failures councilExperts failedCompleted).2 (by decide)

/-- C7: with one settled outcome per expert, processing the completed
futures in reverse completion order yields a bundle identical to forward
order — the aggregation looks each expert's result up by name, so it is
insensitive to the order in which experts complete. -/
theorem council_order_insensitive (required_experts : List String)
    (completed : List (String × Option ExpertAnswer))
    (h : (completed.map Prod.fst).Nodup) :
    consultBundle required_experts completed.reverse =
      consultBundle required_experts completed := by
  have hres : ∀ e, resultFor completed.reverse e = resultFor completed e := by
    intro e
    unfold resultFor
    rw [dictLookup_reverse completed e h]
  unfold consultBundle
  suffices hagg : aggregateResults required_experts completed.reverse =
      aggregateResults required_experts completed by rw [hagg]
  unfold aggregateResults
  have hcongr : ∀ (xs : List String) (acc : KnowledgeBundle),
      xs.foldl (fun acc e => processResult acc e (resultFor completed.reverse e)) acc =
      xs.foldl (fun acc e => processResult acc e (resultFor completed e)) acc := by
    intro xs
    induction xs with
    | nil => intro acc; rfl
    | cons x rest ih =>
      intro acc
      rw [List.foldl_cons, List.foldl_cons, hres x]
      exact ih _
  exact hcongr required_experts _

/-- C7 witness: reversing the completion order of the two settled experts
leaves the merged bundle unchanged. -/
theorem council_order_insensitive_witness :
    consultBundle councilExperts councilCompleted.reverse =
      consultBundle councilExperts councilCompleted :=
  council_order_insensitive councilExperts councilCompleted (by decide)

/-- C6: the result contains a `diet_plan` component iff the requested plan
type (defaulting to `general`) is `diet` or `general`, a `fitness_plan`
component iff it is `fitness` or `general`, and always contains
`lifestyle_recommendations` and `personalized_notes`. -/
theorem generate_plan_components {α : Type} (genDiet genFitness genLifestyle genNotes :
    String → Profile → α) (request : List (String × String)) (user_profile : Profile) :
    ((dictLookup (generate_plan genDiet genFitness genLifestyle genNotes request
        user_profile) "diet_plan").isSome ↔
      ((dictLookup request "plan_type").getD "general" = "diet" ∨
        (dictLookup request "plan_type").getD "general" = "general")) ∧
    ((dictLookup (generate_plan genDiet genFitness genLifestyle genNotes request
        user_profile) "fitness_plan").isSome ↔
      ((dictLookup request "plan_type").getD "general" = "fitness" ∨
        (dictLookup request "plan_type").getD "general" = "general")) ∧
    (dictLookup (generate_plan genDiet genFitness genLifestyle genNotes request
      user_profile) "lifestyle_recommendations").isSome ∧
    (dictLookup (generate_plan genDiet genFitness genLifestyle genNotes request
      user_profile) "personalized_notes").isSome := by
  unfold generate_plan
  by_cases hd : (dictLookup request "plan_type").getD "general" = "diet" ∨
      (dictLookup request "plan_type").getD "general" = "general" <;>
    by_cases hf : (dictLookup request "plan_type").getD "general" = "fitness" ∨
        (dictLookup request "plan_type").getD "general" = "general" <;>
      simp [hd, hf, dictInsert, dictLookup]

theorem not_space_of_digit (c : Char) (h : c.isDigit = true) : isSpaceChar c = false := by
  cases hs : isSpaceChar c
  · rfl
  · exfalso
    simp only [isSpaceChar, Bool.or_eq_true, beq_iff_eq] at hs
    rcases hs with ((((((rfl | rfl) | rfl) | rfl) | rfl) | rfl) | rfl) | rfl <;>
      simp [Char.isDigit] at h

theorem dropWhile_cons_of_false {p : Char → Bool} {a : Char} {l : List Char}
    (h : p a = false) : (a :: l).dropWhile p = a :: l := by
  simp [List.dropWhile, h]

theorem dropWhile_append_of_all {p : Char → Bool} {l₁ l₂ : List Char}
    (h : ∀ c ∈ l₁, p c = true) : (l₁ ++ l₂).dropWhile p = l₂.dropWhile p := by
  induction l₁ with
  | nil => rfl
  | cons a rest ih =>
    rw [List.cons_append]
    rw [List.dropWhile, h a (List.mem_cons_self a rest)]
    exact ih (fun c hc => h c (List.mem_cons_of_mem a hc))

theorem trim_of_numbered (ds ws : List Char) (hne : ds ≠ [])
    (hd : ∀ c ∈ ds, c.isDigit = true) (hw : ∀ c ∈ ws, isSpaceChar c = true) :
    jsTrim (ds ++ '.' :: ws) = ds ++ ['.'] := by
  obtain ⟨d, ds', rfl⟩ := List.exists_cons_of_ne_nil hne
  unfold jsTrim
  rw [List.cons_append,
    dropWhile_cons_of_false (not_space_of_digit d (hd d (List.mem_cons_self d ds')))]
  rw [show (d :: (ds' ++ '.' :: ws)) = (d :: ds') ++ '.' :: ws from rfl]
  rw [List.reverse_append, List.reverse_cons,
    List.append_assoc, List.singleton_append]
  rw [dropWhile_append_of_all (fun c hc => hw c (List.mem_reverse.mp hc))]
  rw [dropWhile_cons_of_false (show isSpaceChar '.' = false from by decide)]
  rw [List.reverse_cons, List.reverse_reverse]

theorem takeWhile_eq_self_of_length {p : Char → Bool} {cs : List Char}
    (h : (cs.takeWhile p).length = cs.length) : cs.takeWhile p = cs := by
  induction cs with
  | nil => rfl
  | cons c rest ih =>
    cases hp : p c with
    | true =>
      simp only [List.takeWhile_cons, hp, if_true, List.length_cons,
        Nat.add_right_cancel_iff] at h
      simp only [List.takeWhile_cons, hp, if_true]
      rw [ih h]
    | false =>
      simp [List.takeWhile_cons, hp] at h

theorem greedyWsSplit_all_space (cs : List Char) (pr : List Char × List Char)
    (h : greedyWsSplit cs = some pr) : ∀ c ∈ pr.1, isSpaceChar c = true := by
  unfold greedyWsSplit at h
  by_cases hlen : (cs.takeWhile isSpaceChar).length = cs.length
  · rw [if_pos hlen] at h
    have heq : cs.takeWhile isSpaceChar = cs := takeWhile_eq_self_of_length hlen
    cases hl : cs.getLast? with
    | none => rw [hl] at h; cases h
    | some c0 =>
      rw [hl] at h
      dsimp only at h
      by_cases hd : isDotChar c0 = true
      · rw [if_pos hd] at h
        cases h
        intro c hc
        exact List.mem_takeWhile_imp (heq ▸ List.mem_of_mem_dropLast hc)
      · rw [if_neg hd] at h
        cases h
  · rw [if_neg hlen] at h
    by_cases hall : (cs.drop (cs.takeWhile isSpaceChar).length).all isDotChar = true
    · rw [if_pos hall] at h
      cases h
      intro c hc
      exact List.mem_takeWhile_imp hc
    · rw [if_neg hall] at h
      cases h

theorem matchNumbered_struct (cs g1 g2 : List Char)
    (h : matchNumbered cs = some (g1, g2)) :
    ∃ ws, g1 = cs.takeWhile Char.isDigit ++ '.' :: ws ∧
      cs.takeWhile Char.isDigit ≠ [] ∧ ∀ c ∈ ws, isSpaceChar c = true := by
  unfold matchNumbered at h
  by_cases hds : (cs.takeWhile Char.isDigit).isEmpty
  · rw [if_pos hds] at h
    cases h
  · rw [if_neg hds] at h
    cases hdrop : cs.drop (cs.takeWhile Char.isDigit).length with
    | nil => rw [hdrop] at h; cases h
    | cons c rest =>
      rw [hdrop] at h
      dsimp only at h
      by_cases hc : c = '.'
      · rw [if_pos hc] at h
        cases hg : greedyWsSplit rest with
        | none => rw [hg] at h; cases h
        | some pr =>
          rw [hg] at h
          cases h
          exact ⟨pr.1, rfl, fun hnil => hds (by rw [hnil]; rfl),
            greedyWsSplit_all_space rest pr hg⟩
      · rw [if_neg hc] at h
        cases h

theorem parseLine_number_of_matched (line : List Char)
    (h : (matchNumbered line).isSome) :
    (parseLine line).number =
      some (String.mk (line.takeWhile Char.isDigit ++ ['.'])) := by
  obtain ⟨⟨g1, g2⟩, hsome⟩ := Option.isSome_iff_exists.mp h
  obtain ⟨ws, hg1, hne, hws⟩ := matchNumbered_struct line g1 g2 hsome
  have htrim : jsTrim g1 = line.takeWhile Char.isDigit ++ ['.'] := by
    rw [hg1]
    exact trim_of_numbered _ _ hne (fun c hc => List.mem_takeWhile_imp hc) hws
  cases ht : matchTitled g2 with
  | none =>
    simp only [parseLine, hsome, ht]
    rw [htrim]
  | some p =>
    obtain ⟨t, c⟩ := p
    simp only [parseLine, hsome, ht]
    rw [htrim]

/-- C9 (amended): the parser is a total function returning exactly one
item per non-blank line; a line matching the numbered-point pattern
yields an item whose `number` field is the trimmed digits-and-dot prefix,
and its `content` may be empty (e.g. when only whitespace follows the
prefix); any other non-blank line yields an item with only a trimmed
`content` field; a null or empty input yields the empty list. -/
theorem parseListToStructured_shape (s : String) :
    parseListToStructured none = [] ∧
    parseListToStructured (some "") = [] ∧
    parseListToStructured (some s) = (nonBlankLines s).map parseLine ∧
    (parseListToStructured (some s)).length = (nonBlankLines s).length ∧
    ∀ l ∈ nonBlankLines s,
      ((matchNumbered l).isSome →
        (parseLine l).number =
          some (String.mk (l.takeWhile Char.isDigit ++ ['.']))) ∧
      (matchNumbered l = none →
        parseLine l =
          { number := none, title := none, content := String.mk (jsTrim l) }) := by
  have hmap : parseListToStructured (some s) = (nonBlankLines s).map parseLine := by
    unfold parseListToStructured
    dsimp only
    by_cases hs : s = ""
    · subst hs
      rfl
    · rw [if_neg hs]
  refine ⟨rfl, rfl, hmap, by rw [hmap, List.length_map], ?_⟩
  intro l _
  refine ⟨parseLine_number_of_matched l, ?_⟩
  intro hn
  unfold parseLine
  rw [hn]

/-- C9 amended-claim witness: a numbered line and a plain line. -/
theorem parseListToStructured_shape_witness :
    (parseLine ("2. hydrate".toList)).number = some "2." ∧
    parseLine ("stay active".toList) =
      { number := none, title := none, content := "stay active" } := by
  have h := parseListToStructured_shape "2. hydrate\nstay active"
  constructor
  · have h1 := (h.2.2.2.2 ("2. hydrate".toList) (by decide)).1 (by decide)
    rw [h1]
    decide
  · have h2 := (h.2.2.2.2 ("stay active".toList) (by decide)).2 (by decide)
    rw [h2]
    decide

/-- C9 counterexample: the input `"1. "` consists of one non-blank line
that matches the numbered pattern, yet its item's `content` is the empty
string — refuting the claim that a numbered line's content is always
non-empty. -/
theorem parseListToStructured_empty_content_counterexample :
    (matchNumbered ("1. ".toList)).isSome = true ∧
    parseListToStructured (some "1. ") =
      [{ number := some "1.", title := none, content := "" }] := by
  decide

/-- C10: a BMI value is computed only when both fields are present and the
height is strictly positive — and then the divisor `h * h` is non-zero,
so the division is never by zero; with either field missing or a
non-positive height, `bmi` remains `null` and no BMI entry is produced. -/
theorem computeBMI_guard (weight_lbs height_inches : Option ℚ) :
    (∀ b, computeBMI weight_lbs height_inches = some b →
      ∃ w h, weight_lbs = some w ∧ height_inches = some h ∧ 0 < h ∧
        h * h ≠ 0 ∧ b = (w * 703) / (h * h)) ∧
    (weight_lbs = none → computeBMI weight_lbs height_inches = none) ∧
    (height_inches = none → computeBMI weight_lbs height_inches = none) ∧
    (∀ h, height_inches = some h → h ≤ 0 →
      computeBMI weight_lbs height_inches = none) := by
  refine ⟨?_, ?_, ?_, ?_⟩
  · intro b hb
    cases weight_lbs with
    | none => cases hb
    | some w =>
      cases height_inches with
      | none => cases hb
      | some h =>
        unfold computeBMI at hb
        dsimp only at hb
        by_cases hg : w ≠ 0 ∧ h ≠ 0 ∧ 0 < h
        · rw [if_pos hg] at hb
          cases hb
          exact ⟨w, h, rfl, rfl, hg.2.2, mul_ne_zero hg.2.1 hg.2.1, rfl⟩
        · rw [if_neg hg] at hb
          cases hb
  · intro hw
    subst hw
    rfl
  · intro hh
    subst hh
    cases weight_lbs <;> rfl
  · intro h hh hle
    subst hh
    cases weight_lbs with
    | none => rfl
    | some w =>
      unfold computeBMI
      dsimp only
      rw [if_neg]
      rintro ⟨-, -, hpos⟩
      exact absurd hle (not_le.mpr hpos)

/-- C10 witness: a zero height and a missing weight both leave `bmi`
null; a well-formed profile yields the guarded quotient. -/
theorem computeBMI_guard_witness :
    computeBMI (some 150) (some 0) = none ∧
    computeBMI none (some 70) = none := by
  constructor
  · exact (computeBMI_guard (some 150) (some 0)).2.2.2 0 rfl le_rfl
  · exact (computeBMI_guard none (some 70)).2.1 rfl

end HealthMindCoach
